import Mathlib

/-!
Verification development for the AlphaQuery expense-query pipeline
(intent classification, entity extraction, date-range resolution, query
execution).  The Python source is shallowly embedded: pandas frames become
lists of records, floats become rationals, `datetime` values become a
six-field structure, and external collaborators (the sentence-embedding
model, the `dateparser` library, the `rapidfuzz` scorer) become function
parameters.  The repository contains two near-duplicate revisions of the
executor; both are embedded (`Core` = `core/executor.py`, used by the
dashboard and test harness; `Api` = top-level `executor.py`, used by the
FastAPI endpoint).
-/

/-- Calendar timestamp at second granularity, modelling Python's naive
`datetime`.  Comparison is lexicographic on the six fields, as in Python. -/
structure DT where
  year : ℤ
  month : ℕ
  day : ℕ
  hour : ℕ
  minute : ℕ
  second : ℕ
deriving DecidableEq

/-- Lexicographic order on timestamps, as Python compares `datetime`s. -/
def dtLe (a b : DT) : Prop :=
  a.year < b.year ∨ (a.year = b.year ∧
    (a.month < b.month ∨ (a.month = b.month ∧
      (a.day < b.day ∨ (a.day = b.day ∧
        (a.hour < b.hour ∨ (a.hour = b.hour ∧
          (a.minute < b.minute ∨ (a.minute = b.minute ∧
            a.second ≤ b.second)))))))))

instance (a b : DT) : Decidable (dtLe a b) := by unfold dtLe; infer_instance

/-- Leap-year rule used by `calendar.monthrange`. -/
def isLeap (y : ℤ) : Bool :=
  y.emod 4 == 0 && (y.emod 100 != 0 || y.emod 400 == 0)

/-- Number of days in a month, as `calendar.monthrange(year, month)[1]`
returns it for the valid months 1..12. -/
def monthLen (y : ℤ) (m : ℕ) : ℕ :=
  if m = 2 then (if isLeap y then 29 else 28)
  else if m = 4 ∨ m = 6 ∨ m = 9 ∨ m = 11 then 30
  else 31

theorem monthLen_pos (y : ℤ) (m : ℕ) : 1 ≤ monthLen y m := by
  unfold monthLen; split <;> [split <;> omega; split <;> omega]

/-- `DateParser._start`: 00:00:00 of the given calendar day. -/
def startOfDay (t : DT) : DT := ⟨t.year, t.month, t.day, 0, 0, 0⟩

/-- `DateParser._end`: 23:59:59 of the given calendar day. -/
def endOfDay (t : DT) : DT := ⟨t.year, t.month, t.day, 23, 59, 59⟩

/-- Calendar day as a (year, month, day) triple. -/
def dateOf (t : DT) : ℤ × ℕ × ℕ := (t.year, t.month, t.day)

/-- Lexicographic order on calendar days. -/
def dateLe3 (a b : ℤ × ℕ × ℕ) : Prop :=
  a.1 < b.1 ∨ (a.1 = b.1 ∧ (a.2.1 < b.2.1 ∨ (a.2.1 = b.2.1 ∧ a.2.2 ≤ b.2.2)))

/-- Validity of a calendar day (what Python `datetime` accepts, years aside). -/
def validDay (p : ℤ × ℕ × ℕ) : Prop :=
  1 ≤ p.2.1 ∧ p.2.1 ≤ 12 ∧ 1 ≤ p.2.2 ∧ p.2.2 ≤ monthLen p.1 p.2.1

/-- The calendar day before the given one (one `timedelta(days=1)` step). -/
def dayBefore (p : ℤ × ℕ × ℕ) : ℤ × ℕ × ℕ :=
  if 1 < p.2.2 then (p.1, p.2.1, p.2.2 - 1)
  else if 1 < p.2.1 then (p.1, p.2.1 - 1, monthLen p.1 (p.2.1 - 1))
  else (p.1 - 1, 12, 31)

/-- The calendar day after the given one. -/
def dayAfter (p : ℤ × ℕ × ℕ) : ℤ × ℕ × ℕ :=
  if p.2.2 < monthLen p.1 p.2.1 then (p.1, p.2.1, p.2.2 + 1)
  else if p.2.1 < 12 then (p.1, p.2.1 + 1, 1)
  else (p.1 + 1, 1, 1)

def iterPrev : ℕ → ℤ × ℕ × ℕ → ℤ × ℕ × ℕ
  | 0, p => p
  | n + 1, p => dayBefore (iterPrev n p)

def iterNext : ℕ → ℤ × ℕ × ℕ → ℤ × ℕ × ℕ
  | 0, p => p
  | n + 1, p => dayAfter (iterNext n p)

/-- `datetime - timedelta(days=n)`, modelled by day stepping (time of day
is unchanged, matching whole-day timedeltas). -/
def subDays (t : DT) (n : ℕ) : DT :=
  let p := iterPrev n (dateOf t)
  ⟨p.1, p.2.1, p.2.2, t.hour, t.minute, t.second⟩

/-- `datetime + timedelta(days=n)`, modelled by day stepping. -/
def addDays (t : DT) (n : ℕ) : DT :=
  let p := iterNext n (dateOf t)
  ⟨p.1, p.2.1, p.2.2, t.hour, t.minute, t.second⟩

/-- Validity of a timestamp's calendar day. -/
def validDT (t : DT) : Prop := validDay (dateOf t)

theorem monthLen_le (y : ℤ) (m : ℕ) : monthLen y m ≤ 31 := by
  unfold monthLen; split <;> [split <;> omega; split <;> omega]

theorem monthLen_twelve (y : ℤ) : monthLen y 12 = 31 := by
  unfold monthLen; norm_num

theorem dayBefore_valid {p : ℤ × ℕ × ℕ} (h : validDay p) :
    validDay (dayBefore p) := by
  obtain ⟨y, m, d⟩ := p
  have h1 := monthLen_pos y (m - 1)
  have h2 := monthLen_twelve (y - 1)
  unfold validDay at *
  unfold dayBefore
  dsimp only at *
  split <;> [skip; split] <;> dsimp only <;> omega

theorem dayBefore_lt {p : ℤ × ℕ × ℕ} (h : validDay p) :
    dateLe3 (dayBefore p) p ∧ dayBefore p ≠ p := by
  obtain ⟨y, m, d⟩ := p
  have h1 := monthLen_pos y (m - 1)
  have h2 := monthLen_le y (m - 1)
  unfold validDay at h
  unfold dayBefore dateLe3
  dsimp only at *
  split <;> [skip; split] <;>
    (constructor
     · dsimp only; omega
     · intro hc
       rw [Prod.ext_iff, Prod.ext_iff] at hc
       dsimp only at hc
       omega)

theorem dayAfter_valid {p : ℤ × ℕ × ℕ} (h : validDay p) :
    validDay (dayAfter p) := by
  obtain ⟨y, m, d⟩ := p
  have h1 := monthLen_pos y (m + 1)
  have h2 := monthLen_pos (y + 1) 1
  unfold validDay at *
  unfold dayAfter
  dsimp only at *
  split <;> [skip; split] <;> dsimp only <;> omega

theorem dayAfter_ge {p : ℤ × ℕ × ℕ} (h : validDay p) :
    dateLe3 p (dayAfter p) := by
  obtain ⟨y, m, d⟩ := p
  unfold validDay at h
  unfold dayAfter dateLe3
  dsimp only at *
  split <;> [skip; split] <;> dsimp only <;> omega

theorem dateLe3_trans {a b c : ℤ × ℕ × ℕ} (h1 : dateLe3 a b) (h2 : dateLe3 b c) :
    dateLe3 a c := by
  unfold dateLe3 at *; omega

theorem dateLe3_refl (a : ℤ × ℕ × ℕ) : dateLe3 a a := by
  unfold dateLe3; omega

theorem iterPrev_valid_le {p : ℤ × ℕ × ℕ} (n : ℕ) (h : validDay p) :
    validDay (iterPrev n p) ∧ dateLe3 (iterPrev n p) p := by
  induction n with
  | zero => exact ⟨h, dateLe3_refl p⟩
  | succ k ih =>
    exact ⟨dayBefore_valid ih.1, dateLe3_trans (dayBefore_lt ih.1).1 ih.2⟩

theorem iterNext_valid_ge {p : ℤ × ℕ × ℕ} (n : ℕ) (h : validDay p) :
    validDay (iterNext n p) ∧ dateLe3 p (iterNext n p) := by
  induction n with
  | zero => exact ⟨h, dateLe3_refl p⟩
  | succ k ih =>
    exact ⟨dayAfter_valid ih.1, dateLe3_trans ih.2 (dayAfter_ge ih.1)⟩

/-- Start-of-day of an earlier-or-equal calendar day is at or before
end-of-day of a later-or-equal calendar day. -/
theorem dtLe_start_end {a b : DT} (h : dateLe3 (dateOf a) (dateOf b)) :
    dtLe (startOfDay a) (endOfDay b) := by
  unfold dateLe3 dateOf at h
  unfold dtLe startOfDay endOfDay
  dsimp only at *
  omega

/-! ### Day numbers and epoch seconds

`days-from-civil` / `civil-from-days` conversions, used to model `datetime`
subtraction (`timedelta` at second granularity) in the core executor's
period comparison, and `datetime.weekday()`. -/

def daysFromCivil (y : ℤ) (m d : ℕ) : ℤ :=
  let yy : ℤ := if m ≤ 2 then y - 1 else y
  let era : ℤ := Int.fdiv yy 400
  let yoe : ℕ := (yy - era * 400).toNat
  let mp : ℕ := if 2 < m then m - 3 else m + 9
  let doy : ℕ := (153 * mp + 2) / 5 + d - 1
  let doe : ℕ := yoe * 365 + yoe / 4 - yoe / 100 + doy
  era * 146097 + (doe : ℤ) - 719468

def civilFromDays (z0 : ℤ) : ℤ × ℕ × ℕ :=
  let z : ℤ := z0 + 719468
  let era : ℤ := Int.fdiv z 146097
  let doe : ℕ := (z - era * 146097).toNat
  let yoe : ℕ := (doe - doe / 1460 + doe / 36524 - doe / 146096) / 365
  let doy : ℕ := doe - (365 * yoe + yoe / 4 - yoe / 100)
  let mp : ℕ := (5 * doy + 2) / 153
  let d : ℕ := doy - (153 * mp + 2) / 5 + 1
  let m : ℕ := if mp < 10 then mp + 3 else mp - 9
  (if m ≤ 2 then (yoe : ℤ) + era * 400 + 1 else (yoe : ℤ) + era * 400, m, d)

/-- `datetime.weekday()`: Monday = 0.  1970-01-01 was a Thursday (3). -/
def weekdayOf (t : DT) : ℕ :=
  ((daysFromCivil t.year t.month t.day + 3).emod 7).toNat

/-- Seconds since the epoch, the linearization by which `timedelta`
arithmetic between timestamps is modelled. -/
def dtToSec (t : DT) : ℤ :=
  daysFromCivil t.year t.month t.day * 86400 +
    (t.hour : ℤ) * 3600 + (t.minute : ℤ) * 60 + (t.second : ℤ)

/-- Timestamp from epoch seconds. -/
def secToDT (s : ℤ) : DT :=
  let dn : ℤ := Int.fdiv s 86400
  let r : ℕ := (s - 86400 * dn).toNat
  let c := civilFromDays dn
  ⟨c.1, c.2.1, c.2.2, r / 3600, r % 3600 / 60, r % 60⟩

/-! ### Year-month labels

`start.strftime("%Y-%m")` and `str(pandas.Period(..., freq="M"))` both
print the year zero-padded to four digits and the month to two. -/

def digitChar : ℕ → Char
  | 0 => '0' | 1 => '1' | 2 => '2' | 3 => '3' | 4 => '4'
  | 5 => '5' | 6 => '6' | 7 => '7' | 8 => '8' | 9 => '9'
  | _ => '*'

theorem digitChar_inj {a b : ℕ} (ha : a < 10) (hb : b < 10)
    (h : digitChar a = digitChar b) : a = b := by
  interval_cases a <;> interval_cases b <;> revert h <;> decide

/-- The seven-character label "YYYY-MM" over natural year and month. -/
def fmtN (y m : ℕ) : String :=
  String.mk [digitChar (y / 1000), digitChar (y / 100 % 10),
    digitChar (y / 10 % 10), digitChar (y % 10), '-',
    digitChar (m / 10), digitChar (m % 10)]

/-- Year-month label of a timestamp, as `strftime("%Y-%m")` renders it. -/
def fmtYM (y : ℤ) (m : ℕ) : String := fmtN y.toNat m

theorem fmtN_inj {y1 m1 y2 m2 : ℕ} (hy1 : y1 < 10000) (hy2 : y2 < 10000)
    (hm1 : m1 < 100) (hm2 : m2 < 100) (h : fmtN y1 m1 = fmtN y2 m2) :
    y1 = y2 ∧ m1 = m2 := by
  unfold fmtN at h
  have h' : [digitChar (y1 / 1000), digitChar (y1 / 100 % 10),
      digitChar (y1 / 10 % 10), digitChar (y1 % 10), '-',
      digitChar (m1 / 10), digitChar (m1 % 10)] =
      [digitChar (y2 / 1000), digitChar (y2 / 100 % 10),
      digitChar (y2 / 10 % 10), digitChar (y2 % 10), '-',
      digitChar (m2 / 10), digitChar (m2 % 10)] := congrArg String.data h
  simp only [List.cons.injEq, and_true] at h'
  rename' h' => h
  obtain ⟨h1, h2, h3, h4, _, h5, h6⟩ := h
  have e1 := digitChar_inj (by omega) (by omega) h1
  have e2 := digitChar_inj (by omega) (by omega) h2
  have e3 := digitChar_inj (by omega) (by omega) h3
  have e4 := digitChar_inj (by omega) (by omega) h4
  have e5 := digitChar_inj (by omega) (by omega) h5
  have e6 := digitChar_inj (by omega) (by omega) h6
  omega

theorem fmtYM_inj {y1 y2 : ℤ} {m1 m2 : ℕ} (hy1 : 0 ≤ y1) (hy1' : y1 < 10000)
    (hy2 : 0 ≤ y2) (hy2' : y2 < 10000) (hm1 : m1 < 100) (hm2 : m2 < 100)
    (h : fmtYM y1 m1 = fmtYM y2 m2) : y1 = y2 ∧ m1 = m2 := by
  unfold fmtYM at h
  have := @fmtN_inj y1.toNat m1 y2.toNat m2 (by omega) (by omega)
    hm1 hm2 h
  omega

/-! ### String utilities

Executable substring containment and tokenization, ASCII-level models of
`in` on Python strings and of `re.findall("[a-zA-Z]+", q)`. -/

/-- Does the first list occur as a leading run of the second? -/
def leadRun : List Char → List Char → Bool
  | [], _ => true
  | _ :: _, [] => false
  | a :: as, b :: bs => a == b && leadRun as bs

/-- Substring containment over char lists (`pat in s` for Python strings). -/
def hasSubL (pat : List Char) : List Char → Bool
  | [] => leadRun pat []
  | c :: t => leadRun pat (c :: t) || hasSubL pat t

/-- Substring containment for strings. -/
def hasSub (pat s : String) : Bool := hasSubL pat.toList s.toList

/-- Count of leading whitespace characters (`\s` of `re`). -/
def isWsC (c : Char) : Bool :=
  c == ' ' || c == '\t' || c == '\n' || c == '\r' || c == '\x0b' || c == '\x0c'

def isDigitC (c : Char) : Bool := '0' ≤ c && c ≤ '9'

def isLowerC (c : Char) : Bool := 'a' ≤ c && c ≤ 'z'

def isAlphaC (c : Char) : Bool := isLowerC c || ('A' ≤ c && c ≤ 'Z')

/-- `\w` of `re` over ASCII. -/
def isWordC (c : Char) : Bool := isAlphaC c || isDigitC c || c == '_'

/-- Numeric value of a digit run (how `int` reads a captured `\d+` group). -/
def digitsToNat (l : List Char) : ℕ :=
  l.foldl (fun a c => a * 10 + (c.toNat - 48)) 0

/-- Maximal alphabetic runs of a string: `re.findall("[a-zA-Z]+", q)`. -/
def alphaTokensAux : List Char → List Char → List String
  | cur, [] => if cur.isEmpty then [] else [String.mk cur.reverse]
  | cur, c :: t =>
    if isAlphaC c then alphaTokensAux (c :: cur) t
    else if cur.isEmpty then alphaTokensAux [] t
    else String.mk cur.reverse :: alphaTokensAux [] t

def alphaTokens (s : String) : List String := alphaTokensAux [] s.toList

/-- Python `int()` applied to a rational total: truncation toward zero. -/
def pyInt (x : ℚ) : ℤ := Int.tdiv x.num x.den

/-! ### Data model -/

/-- One transaction row of the tabular dataset (rows with unparseable
dates were already dropped at load time). -/
structure Txn where
  date : DT
  amount : ℚ
  category : String
  merchant : String
  description : String
deriving DecidableEq

/-- The four columns a `list_transactions` record carries. -/
structure Rec4 where
  date : DT
  amount : ℚ
  category : String
  merchant : String
deriving DecidableEq

def toRec4 (t : Txn) : Rec4 := ⟨t.date, t.amount, t.category, t.merchant⟩

/-- Output of the entity extractor: `{"category": .., "merchant": ..,
"amount": ..}` with `None` for absent fields. -/
structure Entities where
  category : Option String
  merchant : Option String
  amount : Option ℚ
deriving DecidableEq

/-- Result value of the executor; the shape depends on the intent. -/
inductive Res where
  | int (n : ℤ)
  | rat (q : ℚ)
  | list (l : List Rec4)
  | map (m : List (String × ℤ))
  | cat (c : Option String)
deriving DecidableEq

/-- Python-dict insertion: overwrite in place if the key exists, else
append.  Result dicts are modelled as insertion-ordered association lists. -/
def dictInsert (l : List (String × ℤ)) (k : String) (v : ℤ) :
    List (String × ℤ) :=
  if k ∈ l.map Prod.fst then
    l.map (fun p => if p.1 == k then (k, v) else p)
  else l ++ [(k, v)]

/-- Sum of the `amount` column. -/
def amtSum (l : List Txn) : ℚ := (l.map Txn.amount).sum

/-- `df[(df["date"] >= start) & (df["date"] <= end)]`. -/
def rangeFilter (s e : DT) (l : List Txn) : List Txn :=
  l.filter (fun t => decide (dtLe s t.date) && decide (dtLe t.date e))

/-- Date filter: applied only when both bounds are present
(`if start_date and end_date`). -/
def dateFilter (sd ed : Option DT) (l : List Txn) : List Txn :=
  match sd, ed with
  | some s, some e => rangeFilter s e l
  | _, _ => l

/-- `if entities.get("category"): df = df[df["category"] == ...]` —
a present-but-empty string is falsy in Python and applies no filter. -/
def catFilter (c : Option String) (l : List Txn) : List Txn :=
  match c with
  | some s => if s == "" then l else l.filter (fun t => t.category == s)
  | none => l

def merFilter (m : Option String) (l : List Txn) : List Txn :=
  match m with
  | some s => if s == "" then l else l.filter (fun t => t.merchant == s)
  | none => l

/-- `if entities.get("amount"): df = df[df["amount"] >= ...]` — a zero
threshold is falsy and applies no filter. -/
def amtFilter (a : Option ℚ) (l : List Txn) : List Txn :=
  match a with
  | some x => if x == 0 then l else l.filter (fun t => decide (x ≤ t.amount))
  | none => l

/-- The private filtered working copy of the dataset: date, category,
merchant, then amount filter, in the executor's order. -/
def workingSet (e : Entities) (sd ed : Option DT) (ds : List Txn) : List Txn :=
  amtFilter e.amount (merFilter e.merchant (catFilter e.category
    (dateFilter sd ed ds)))

/-- Sum of amounts over the rows of one category
(one group of `groupby("category")["amount"].sum()`). -/
def catSum (ds : List Txn) (c : String) : ℚ :=
  amtSum (ds.filter (fun t => t.category == c))

/-- Code-point lexicographic comparison of strings, the order by which
pandas sorts group keys. -/
def strLtL : List Char → List Char → Bool
  | [], [] => false
  | [], _ :: _ => true
  | _ :: _, [] => false
  | a :: as, b :: bs =>
    if a.toNat < b.toNat then true
    else if b.toNat < a.toNat then false
    else strLtL as bs

def strLtB (a b : String) : Bool := strLtL a.toList b.toList

/-- Insert into a list sorted by string order. -/
def insStr (x : String) : List String → List String
  | [] => [x]
  | h :: t => if strLtB x h then x :: h :: t else h :: insStr x t

/-- Sort strings ascending, as pandas `groupby(sort=True)` orders keys. -/
def sortStr : List String → List String
  | [] => []
  | h :: t => insStr h (sortStr t)

/-- The distinct categories in pandas group order (sorted unique keys). -/
def groupKeys (ds : List Txn) : List String :=
  sortStr (ds.map Txn.category).dedup

/-- First element attaining the maximum of `f` (`Series.idxmax` keeps the
first occurrence on ties). -/
def pickMax (f : String → ℚ) (h : String) (t : List String) : String :=
  t.foldl (fun b x => if f b < f x then x else b) h

/-- `df.groupby("category")["amount"].sum().idxmax()` over a dataset,
`None` on an empty frame. -/
def topCat (ds : List Txn) : Option String :=
  if ds.isEmpty then none
  else
    match groupKeys ds with
    | [] => none
    | h :: t => some (pickMax (catSum ds) h t)

namespace Core

/-- `core/executor.py` `Executor._compare_periods`: totals for the queried
period and for the immediately preceding period of the same length, keyed
by each period's start month; `{}` when either bound is absent.  The
category/merchant entity filters are re-applied from the full table;
`timedelta` arithmetic is modelled through epoch seconds. -/
def comparePeriods (sd ed : Option DT) (e : Entities) (ds : List Txn) :
    List (String × ℤ) :=
  match sd, ed with
  | some s, some en =>
    let cur := merFilter e.merchant (catFilter e.category (rangeFilter s en ds))
    let curTotal := pyInt (amtSum cur)
    let delta := dtToSec en - dtToSec s
    let prevEnd := secToDT (dtToSec s - 1)
    let prevStart := secToDT (dtToSec s - 1 - delta)
    let prev := merFilter e.merchant (catFilter e.category
      (rangeFilter prevStart prevEnd ds))
    let prevTotal := pyInt (amtSum prev)
    dictInsert (dictInsert [] (fmtYM s.year s.month) curTotal)
      (fmtYM prevStart.year prevStart.month) prevTotal
  | _, _ => []

/-- `core/executor.py` `Executor.execute`: filter pipeline then intent
dispatch.  `top_category` is computed over the whole table; an
unrecognized intent raises `ValueError`. -/
def execute (intent : String) (e : Entities) (sd ed : Option DT)
    (ds : List Txn) : Except String Res :=
  let df := workingSet e sd ed ds
  if intent = "total_spend" then .ok (.int (pyInt (amtSum df)))
  else if intent = "list_transactions" then .ok (.list (df.map toRec4))
  else if intent = "top_category" then .ok (.cat (topCat ds))
  else if intent = "compare_periods" then .ok (.map (comparePeriods sd ed e ds))
  else if intent = "average_spend" then
    .ok (.rat (if df.isEmpty then 0 else amtSum df / (df.length : ℚ)))
  else .error ("Unknown intent: " ++ intent)

end Core

/-- One month step of a pandas monthly `PeriodIndex`. -/
def ymSucc (p : ℤ × ℕ) : ℤ × ℕ :=
  if p.2 < 12 then (p.1, p.2 + 1) else (p.1 + 1, 1)

def ymIdx (p : ℤ × ℕ) : ℤ := 12 * p.1 + (p.2 : ℤ)

def periodRangeAux : ℤ × ℕ → ℕ → List (ℤ × ℕ)
  | _, 0 => []
  | p, n + 1 => p :: periodRangeAux (ymSucc p) n

/-- `pandas.period_range(start, end, freq="M")` as (year, month) pairs:
every month from the start's month to the end's month inclusive, empty
when the start month is after the end month. -/
def periodRange (a b : ℤ × ℕ) : List (ℤ × ℕ) :=
  periodRangeAux a (ymIdx b + 1 - ymIdx a).toNat

namespace Api

/-- Top-level `executor.py` `Executor._compare_periods` ("FIXED COMPARISON
LOGIC"): one entry per month of the resolved range, keyed by the
`str(Period)` label, each valued with the integer amount-sum of the
already-filtered working set restricted to that calendar month; `{}` when
either bound is absent. -/
def monthVal (df : List Txn) (p : ℤ × ℕ) : ℤ :=
  pyInt (amtSum (df.filter (fun t =>
    t.date.year == p.1 && t.date.month == p.2)))

def comparePeriods (df : List Txn) (sd ed : Option DT) : List (String × ℤ) :=
  match sd, ed with
  | some s, some en =>
    (periodRange (s.year, s.month) (en.year, en.month)).foldl
      (fun acc p => dictInsert acc (fmtYM p.1 p.2) (monthVal df p)) []
  | _, _ => []

/-- Top-level `executor.py` `Executor.execute`: same filter pipeline; here
`top_category` is computed over the filtered working set. -/
def execute (intent : String) (e : Entities) (sd ed : Option DT)
    (ds : List Txn) : Except String Res :=
  let df := workingSet e sd ed ds
  if intent = "total_spend" then .ok (.int (pyInt (amtSum df)))
  else if intent = "list_transactions" then .ok (.list (df.map toRec4))
  else if intent = "top_category" then .ok (.cat (topCat df))
  else if intent = "compare_periods" then .ok (.map (comparePeriods df sd ed))
  else if intent = "average_spend" then
    .ok (.rat (if df.isEmpty then 0 else amtSum df / (df.length : ℚ)))
  else .error ("Unknown intent: " ++ intent)

end Api

/-! ### Executor lemmas -/

theorem mem_dateFilter {t : Txn} {sd ed : Option DT} {l : List Txn}
    (h : t ∈ dateFilter sd ed l) : t ∈ l := by
  unfold dateFilter at h
  rcases sd with _ | s <;> rcases ed with _ | e <;>
    first
    | exact h
    | exact (List.mem_filter.mp h).1

theorem mem_catFilter {t : Txn} {c : Option String} {l : List Txn}
    (h : t ∈ catFilter c l) : t ∈ l := by
  rcases c with _ | s
  · exact h
  · simp only [catFilter] at h
    split at h
    · exact h
    · exact (List.mem_filter.mp h).1

theorem mem_merFilter {t : Txn} {m : Option String} {l : List Txn}
    (h : t ∈ merFilter m l) : t ∈ l := by
  rcases m with _ | s
  · exact h
  · simp only [merFilter] at h
    split at h
    · exact h
    · exact (List.mem_filter.mp h).1

theorem mem_amtFilter {t : Txn} {a : Option ℚ} {l : List Txn}
    (h : t ∈ amtFilter a l) : t ∈ l := by
  rcases a with _ | x
  · exact h
  · simp only [amtFilter] at h
    split at h
    · exact h
    · exact (List.mem_filter.mp h).1

theorem mem_workingSet {t : Txn} {e : Entities} {sd ed : Option DT}
    {ds : List Txn} (h : t ∈ workingSet e sd ed ds) : t ∈ ds := by
  unfold workingSet at h
  exact mem_dateFilter (mem_catFilter (mem_merFilter (mem_amtFilter h)))

/-- A row surviving a present amount filter either met the threshold or
the threshold was the falsy zero and no filtering happened. -/
theorem amtFilter_cases {t : Txn} {a : ℚ} {l : List Txn}
    (h : t ∈ amtFilter (some a) l) : a = 0 ∨ a ≤ t.amount := by
  simp only [amtFilter] at h
  split at h
  · left
    exact beq_iff_eq.mp (by assumption)
  · right
    have := (List.mem_filter.mp h).2
    simpa using this

/-- `pickMax` returns an element of the list it scans. -/
theorem pickMax_mem (f : String → ℚ) (h : String) (t : List String) :
    pickMax f h t ∈ h :: t := by
  induction t generalizing h with
  | nil => simp [pickMax]
  | cons x xs ih =>
    have step : pickMax f h (x :: xs) =
        pickMax f (if f h < f x then x else h) xs := rfl
    rw [step]
    have := ih (if f h < f x then x else h)
    rcases List.mem_cons.mp this with h1 | h1
    · rw [h1]
      split <;> simp
    · exact List.mem_cons.mpr (Or.inr (List.mem_cons.mpr (Or.inr h1)))

/-- `pickMax` attains the maximum of `f` over the scanned list. -/
theorem pickMax_ge (f : String → ℚ) (h : String) (t : List String) :
    ∀ x ∈ h :: t, f x ≤ f (pickMax f h t) := by
  induction t generalizing h with
  | nil => intro x hx; simp at hx; simp [pickMax, hx]
  | cons y ys ih =>
    intro x hx
    have step : pickMax f h (y :: ys) =
        pickMax f (if f h < f y then y else h) ys := rfl
    rw [step]
    have hhd : f h ≤ f (if f h < f y then y else h) := by
      split <;> [exact le_of_lt (by assumption); exact le_refl _]
    have hy : f y ≤ f (if f h < f y then y else h) := by
      split <;> [exact le_refl _; exact le_of_not_lt (by assumption)]
    have hbase := ih (if f h < f y then y else h)
      (if f h < f y then y else h) (List.mem_cons_self _ _)
    rcases List.mem_cons.mp hx with rfl | hx1
    · exact le_trans hhd hbase
    · rcases List.mem_cons.mp hx1 with rfl | hx2
      · exact le_trans hy hbase
      · exact ih _ x (List.mem_cons.mpr (Or.inr hx2))

theorem mem_insStr {a x : String} {l : List String} :
    a ∈ insStr x l ↔ a = x ∨ a ∈ l := by
  induction l with
  | nil => simp [insStr]
  | cons h t ih =>
    unfold insStr
    split
    · simp
    · rw [List.mem_cons, ih, List.mem_cons]
      tauto

theorem mem_sortStr {a : String} {l : List String} :
    a ∈ sortStr l ↔ a ∈ l := by
  induction l with
  | nil => simp [sortStr]
  | cons h t ih =>
    unfold sortStr
    rw [mem_insStr, ih, List.mem_cons]

theorem mem_groupKeys {a : String} {ds : List Txn} :
    a ∈ groupKeys ds ↔ a ∈ ds.map Txn.category := by
  unfold groupKeys
  rw [mem_sortStr, List.mem_dedup]

/-- Characterization of `topCat` on a nonempty dataset: it is a category
occurring in the data whose amount-sum is maximal. -/
theorem topCat_spec {ds : List Txn} (h : ds ≠ []) :
    ∃ c, topCat ds = some c ∧ c ∈ ds.map Txn.category ∧
      ∀ c' ∈ ds.map Txn.category, catSum ds c' ≤ catSum ds c := by
  have hne : ds.isEmpty = false := by
    rcases ds with _ | ⟨x, xs⟩
    · exact absurd rfl h
    · rfl
  have hgk : groupKeys ds ≠ [] := by
    rcases ds with _ | ⟨x, xs⟩
    · exact absurd rfl h
    · intro hg
      have : x.category ∈ groupKeys (x :: xs) := by
        rw [mem_groupKeys]; simp
      rw [hg] at this
      exact absurd this (List.not_mem_nil _)
  rcases hk : groupKeys ds with _ | ⟨k, ks⟩
  · exact absurd hk hgk
  · refine ⟨pickMax (catSum ds) k ks, ?_, ?_, ?_⟩
    · unfold topCat
      rw [hne, hk]
      rfl
    · rw [← mem_groupKeys, hk]
      exact pickMax_mem _ _ _
    · intro c' hc'
      have : c' ∈ groupKeys ds := mem_groupKeys.mpr hc'
      rw [hk] at this
      exact pickMax_ge _ _ _ c' this

/-! ### Period-range lemmas -/

def validYM (p : ℤ × ℕ) : Prop := 1 ≤ p.2 ∧ p.2 ≤ 12

theorem ymSucc_valid {p : ℤ × ℕ} (h : validYM p) : validYM (ymSucc p) := by
  obtain ⟨y, m⟩ := p
  unfold validYM at *
  unfold ymSucc
  dsimp only at *
  split <;> dsimp only <;> omega

theorem ymSucc_idx {p : ℤ × ℕ} (h : validYM p) :
    ymIdx (ymSucc p) = ymIdx p + 1 := by
  obtain ⟨y, m⟩ := p
  unfold validYM at h
  unfold ymSucc ymIdx
  dsimp only at *
  split <;> dsimp only <;> omega

theorem periodRangeAux_length : ∀ (n : ℕ) (p : ℤ × ℕ),
    (periodRangeAux p n).length = n := by
  intro n
  induction n with
  | zero => intro p; rfl
  | succ k ih => intro p; simp [periodRangeAux, ih]

theorem mem_periodRangeAux {x : ℤ × ℕ} : ∀ (n : ℕ) (p : ℤ × ℕ),
    x ∈ periodRangeAux p n → validYM p →
    validYM x ∧ ymIdx p ≤ ymIdx x ∧ ymIdx x < ymIdx p + n := by
  intro n
  induction n with
  | zero => intro p hx _; simp [periodRangeAux] at hx
  | succ k ih =>
    intro p hx hp
    rcases List.mem_cons.mp hx with rfl | hx1
    · exact ⟨hp, le_refl _, by omega⟩
    · have := ih (ymSucc p) hx1 (ymSucc_valid hp)
      rw [ymSucc_idx hp] at this
      exact ⟨this.1, by omega, by omega⟩

theorem periodRangeAux_keys_nodup : ∀ (n : ℕ) (p : ℤ × ℕ),
    validYM p → 0 ≤ p.1 → ymIdx p + n ≤ 120001 →
    ((periodRangeAux p n).map (fun x => fmtYM x.1 x.2)).Nodup := by
  intro n
  induction n with
  | zero => intro p _ _ _; simp [periodRangeAux]
  | succ k ih =>
    intro p hp hp0 hb
    rw [periodRangeAux]
    rw [List.map_cons, List.nodup_cons]
    constructor
    · intro hmem
      obtain ⟨x, hx, hfx⟩ := List.mem_map.mp hmem
      obtain ⟨hvx, hle, hlt⟩ := mem_periodRangeAux k (ymSucc p) hx
        (ymSucc_valid hp)
      rw [ymSucc_idx hp] at hle hlt
      have hpx : x.1 = p.1 ∧ x.2 = p.2 := by
        have hb1 : 0 ≤ x.1 := by
          unfold ymIdx at hle
          unfold validYM at hvx hp
          omega
        have hb2 : x.1 < 10000 := by
          unfold ymIdx at hlt hb
          unfold validYM at hvx hp
          omega
        have hb3 : 0 ≤ p.1 := hp0
        have hb4 : p.1 < 10000 := by
          unfold ymIdx at hb
          unfold validYM at hp
          omega
        have := fmtYM_inj hb1 hb2 hb3 hb4
          (by unfold validYM at hvx; omega) (by unfold validYM at hp; omega)
          hfx
        exact this
      have : ymIdx x = ymIdx p := by
        unfold ymIdx; rw [hpx.1, hpx.2]
      omega
    · exact ih (ymSucc p) (ymSucc_valid hp) (by
        unfold ymSucc
        split <;> dsimp only <;> omega) (by rw [ymSucc_idx hp]; omega)

/-- Folding Python-dict insertion over months with pairwise-distinct labels
builds exactly one entry per month, in order. -/
theorem foldl_dictInsert_map (key : ℤ × ℕ → String) (val : ℤ × ℕ → ℤ) :
    ∀ (ms : List (ℤ × ℕ)) (acc : List (String × ℤ)),
    (ms.map key).Nodup → (∀ p ∈ ms, key p ∉ acc.map Prod.fst) →
    ms.foldl (fun a p => dictInsert a (key p) (val p)) acc
      = acc ++ ms.map (fun p => (key p, val p)) := by
  intro ms
  induction ms with
  | nil => intro acc _ _; simp
  | cons p ms ih =>
    intro acc hnd hfresh
    rw [List.map_cons, List.nodup_cons] at hnd
    have hstep : dictInsert acc (key p) (val p) = acc ++ [(key p, val p)] := by
      unfold dictInsert
      rw [if_neg (hfresh p (List.mem_cons_self _ _))]
    rw [List.foldl_cons, hstep, ih (acc ++ [(key p, val p)]) hnd.2]
    · simp
    · intro q hq
      rw [List.map_append]
      intro hmem
      rcases List.mem_append.mp hmem with h1 | h1
      · exact hfresh q (List.mem_cons.mpr (Or.inr hq)) h1
      · simp at h1
        exact hnd.1 (h1 ▸ List.mem_map_of_mem key hq)

/-! ### Falsy-filter congruence lemmas -/

theorem amtFilter_zero : amtFilter (some 0) = amtFilter none := by
  funext l
  simp [amtFilter]

theorem catFilter_blank : catFilter (some "") = catFilter none := by
  funext l
  simp [catFilter]

theorem merFilter_blank : merFilter (some "") = merFilter none := by
  funext l
  simp [merFilter]

theorem ws_amt_zero (c m : Option String) (sd ed : Option DT) (ds : List Txn) :
    workingSet ⟨c, m, some 0⟩ sd ed ds = workingSet ⟨c, m, none⟩ sd ed ds := by
  unfold workingSet
  dsimp only
  rw [amtFilter_zero]

theorem ws_cat_blank (m : Option String) (a : Option ℚ) (sd ed : Option DT)
    (ds : List Txn) :
    workingSet ⟨some "", m, a⟩ sd ed ds = workingSet ⟨none, m, a⟩ sd ed ds := by
  unfold workingSet
  dsimp only
  rw [catFilter_blank]

theorem ws_mer_blank (c : Option String) (a : Option ℚ) (sd ed : Option DT)
    (ds : List Txn) :
    workingSet ⟨c, some "", a⟩ sd ed ds = workingSet ⟨c, none, a⟩ sd ed ds := by
  unfold workingSet
  dsimp only
  rw [merFilter_blank]

theorem cp_cat_blank (m : Option String) (a : Option ℚ) (sd ed : Option DT)
    (ds : List Txn) :
    Core.comparePeriods sd ed ⟨some "", m, a⟩ ds
      = Core.comparePeriods sd ed ⟨none, m, a⟩ ds := by
  unfold Core.comparePeriods
  rcases sd with _ | s <;> rcases ed with _ | en <;> rfl

theorem cp_mer_blank (c : Option String) (a : Option ℚ) (sd ed : Option DT)
    (ds : List Txn) :
    Core.comparePeriods sd ed ⟨c, some "", a⟩ ds
      = Core.comparePeriods sd ed ⟨c, none, a⟩ ds := by
  unfold Core.comparePeriods
  rcases sd with _ | s <;> rcases ed with _ | en <;> rfl

/-- Claim C6: on an empty filtered working set, `average_spend` returns
exactly 0 and `total_spend` returns exactly 0. -/
theorem C6_empty_working_set_zero :
    ∀ (ds : List Txn) (e : Entities) (sd ed : Option DT),
    workingSet e sd ed ds = [] →
    Core.execute "average_spend" e sd ed ds = .ok (.rat 0) ∧
    Core.execute "total_spend" e sd ed ds = .ok (.int 0) := by
  intro ds e sd ed h
  constructor
  · have hred : Core.execute "average_spend" e sd ed ds
        = .ok (.rat (if (workingSet e sd ed ds).isEmpty then 0
            else amtSum (workingSet e sd ed ds)
              / ((workingSet e sd ed ds).length : ℚ))) := rfl
    rw [hred, h]
    rfl
  · have hred : Core.execute "total_spend" e sd ed ds
        = .ok (.int (pyInt (amtSum (workingSet e sd ed ds)))) := rfl
    rw [hred, h]
    rfl

theorem C6_empty_working_set_zero_witness :
    Core.execute "average_spend" ⟨none, none, none⟩ none none []
      = .ok (.rat 0) ∧
    Core.execute "total_spend" ⟨none, none, none⟩ none none []
      = .ok (.int 0) :=
  C6_empty_working_set_zero [] ⟨none, none, none⟩ none none rfl

/-- Claim C7: when amounts are non-negative and `entities.amount` is
present, every record of a `list_transactions` result meets the
threshold. -/
theorem C7_list_amount_threshold :
    ∀ (ds : List Txn) (e : Entities) (sd ed : Option DT) (a : ℚ)
      (l : List Rec4),
    (∀ t ∈ ds, 0 ≤ t.amount) → e.amount = some a →
    Core.execute "list_transactions" e sd ed ds = .ok (.list l) →
    ∀ r ∈ l, a ≤ r.amount := by
  intro ds e sd ed a l hnn ha hex r hr
  have hred : Core.execute "list_transactions" e sd ed ds
      = .ok (.list ((workingSet e sd ed ds).map toRec4)) := rfl
  rw [hred] at hex
  simp only [Except.ok.injEq, Res.list.injEq] at hex
  rw [← hex] at hr
  obtain ⟨t, ht, rfl⟩ := List.mem_map.mp hr
  show a ≤ t.amount
  have ht' : t ∈ amtFilter (some a) (merFilter e.merchant
      (catFilter e.category (dateFilter sd ed ds))) := by
    unfold workingSet at ht
    rw [ha] at ht
    exact ht
  rcases amtFilter_cases ht' with h0 | hle
  · rw [h0]
    exact hnn t (mem_workingSet ht)
  · exact hle

theorem C7_list_amount_threshold_witness :
    (5 : ℚ) ≤ (toRec4 ⟨⟨2025, 1, 1, 0, 0, 0⟩, 100, "food", "m", ""⟩).amount :=
  C7_list_amount_threshold [⟨⟨2025, 1, 1, 0, 0, 0⟩, 100, "food", "m", ""⟩]
    ⟨none, none, some 5⟩ none none 5
    [toRec4 ⟨⟨2025, 1, 1, 0, 0, 0⟩, 100, "food", "m", ""⟩]
    (by intro t ht; simp at ht; rw [ht]; norm_num) rfl rfl
    (toRec4 ⟨⟨2025, 1, 1, 0, 0, 0⟩, 100, "food", "m", ""⟩) (by simp)

/-- Claim C10: a present-but-zero amount threshold behaves exactly like an
absent one, and likewise a present-but-empty category or merchant; this
holds in both executor revisions, for every intent, dataset and range. -/
theorem C10_falsy_entities_no_filter :
    ∀ (intent : String) (ds : List Txn) (sd ed : Option DT)
      (c m : Option String) (a : Option ℚ),
    Core.execute intent ⟨c, m, some 0⟩ sd ed ds
      = Core.execute intent ⟨c, m, none⟩ sd ed ds ∧
    Core.execute intent ⟨some "", m, a⟩ sd ed ds
      = Core.execute intent ⟨none, m, a⟩ sd ed ds ∧
    Core.execute intent ⟨c, some "", a⟩ sd ed ds
      = Core.execute intent ⟨c, none, a⟩ sd ed ds ∧
    Api.execute intent ⟨c, m, some 0⟩ sd ed ds
      = Api.execute intent ⟨c, m, none⟩ sd ed ds ∧
    Api.execute intent ⟨some "", m, a⟩ sd ed ds
      = Api.execute intent ⟨none, m, a⟩ sd ed ds ∧
    Api.execute intent ⟨c, some "", a⟩ sd ed ds
      = Api.execute intent ⟨c, none, a⟩ sd ed ds := by
  intro intent ds sd ed c m a
  refine ⟨?_, ?_, ?_, ?_, ?_, ?_⟩
  · simp only [Core.execute]
    rw [ws_amt_zero]
    rfl
  · simp only [Core.execute]
    rw [ws_cat_blank, cp_cat_blank]
  · simp only [Core.execute]
    rw [ws_mer_blank, cp_mer_blank]
  · simp only [Api.execute]
    rw [ws_amt_zero]
  · simp only [Api.execute]
    rw [ws_cat_blank]
  · simp only [Api.execute]
    rw [ws_mer_blank]

/-- Claim C3 (amended): in the core-package executor, `top_category`
ignores every query-derived filter and reflects the full dataset: the
result is independent of the entities and the date range, is `None` on an
empty dataset, and on a nonempty dataset is a category of the data whose
amount-sum is maximal.  (The top-level executor revision instead groups
the filtered working set; see the counterexample.) -/
theorem C3_top_category_global :
    (∀ (ds : List Txn) (e : Entities) (sd ed : Option DT),
      Core.execute "top_category" e sd ed ds = .ok (.cat (topCat ds))) ∧
    topCat [] = none ∧
    (∀ ds : List Txn, ds ≠ [] →
      ∃ c, topCat ds = some c ∧ c ∈ ds.map Txn.category ∧
        ∀ c' ∈ ds.map Txn.category, catSum ds c' ≤ catSum ds c) := by
  refine ⟨?_, rfl, ?_⟩
  · intro ds e sd ed
    rfl
  · intro ds h
    exact topCat_spec h

theorem C3_top_category_global_witness :
    ∃ c, topCat [⟨⟨2025, 1, 10, 0, 0, 0⟩, 100, "food", "m", ""⟩] = some c ∧
      c ∈ [⟨⟨2025, 1, 10, 0, 0, 0⟩, 100, "food", "m", ""⟩].map Txn.category ∧
      ∀ c' ∈ [(⟨⟨2025, 1, 10, 0, 0, 0⟩, 100, "food", "m", ""⟩ : Txn)].map
        Txn.category,
        catSum [⟨⟨2025, 1, 10, 0, 0, 0⟩, 100, "food", "m", ""⟩] c'
          ≤ catSum [⟨⟨2025, 1, 10, 0, 0, 0⟩, 100, "food", "m", ""⟩] c :=
  C3_top_category_global.2.2 [⟨⟨2025, 1, 10, 0, 0, 0⟩, 100, "food", "m", ""⟩]
    (by simp)

/-- A two-row dataset on which the two executor revisions disagree about
`top_category`. -/
def c3ds : List Txn :=
  [⟨⟨2025, 1, 10, 0, 0, 0⟩, 100, "food", "m", ""⟩,
   ⟨⟨2025, 1, 11, 0, 0, 0⟩, 50, "rent", "m", ""⟩]

/-- Claim C3 counterexample: with a category filter extracted from the
query, the top-level executor (the one wired to the API endpoint) returns
the filtered set's top category "rent", not the full dataset's maximal
category "food" — so `top_category` does not ignore query-derived filters
in that revision. -/
theorem c3ds_catSum_rent : catSum c3ds "rent" = 50 := by
  have hfr : List.filter (fun t => t.category == "rent") c3ds
      = [⟨⟨2025, 1, 11, 0, 0, 0⟩, 50, "rent", "m", ""⟩] := rfl
  unfold catSum
  rw [hfr]
  simp [amtSum]

theorem c3ds_catSum_food : catSum c3ds "food" = 100 := by
  have hff : List.filter (fun t => t.category == "food") c3ds
      = [⟨⟨2025, 1, 10, 0, 0, 0⟩, 100, "food", "m", ""⟩] := rfl
  unfold catSum
  rw [hff]
  simp [amtSum]

theorem c3ds_topCat : topCat c3ds = some "food" := by
  have hg : groupKeys c3ds = ["food", "rent"] := rfl
  have hstep : topCat c3ds = some (pickMax (catSum c3ds) "food" ["rent"]) := by
    unfold topCat
    rw [hg]
    rfl
  have hp : pickMax (catSum c3ds) "food" ["rent"]
      = if catSum c3ds "food" < catSum c3ds "rent" then "rent" else "food" :=
    rfl
  rw [hstep, hp, c3ds_catSum_rent, c3ds_catSum_food, if_neg (by norm_num)]

/-- The working set of the counterexample query keeps only the rent row. -/
theorem c3ds_working : workingSet ⟨some "rent", none, none⟩ none none c3ds
    = [⟨⟨2025, 1, 11, 0, 0, 0⟩, 50, "rent", "m", ""⟩] := rfl

theorem c3ds_topCat_filtered :
    topCat (workingSet ⟨some "rent", none, none⟩ none none c3ds)
      = some "rent" := by
  rw [c3ds_working]
  rfl

theorem C3_top_category_global_counterexample :
    Api.execute "top_category" ⟨some "rent", none, none⟩ none none c3ds
      = .ok (.cat (some "rent")) ∧
    topCat c3ds = some "food" ∧
    catSum c3ds "rent" = 50 ∧ catSum c3ds "food" = 100 ∧
    ¬ (Api.execute "top_category" ⟨some "rent", none, none⟩ none none c3ds
        = .ok (.cat (topCat c3ds))) := by
  have h0 : Api.execute "top_category" ⟨some "rent", none, none⟩ none none c3ds
      = .ok (.cat (topCat (workingSet ⟨some "rent", none, none⟩ none none
        c3ds))) := rfl
  have h1 : Api.execute "top_category" ⟨some "rent", none, none⟩ none none c3ds
      = .ok (.cat (some "rent")) := by
    rw [h0, c3ds_topCat_filtered]
  refine ⟨h1, c3ds_topCat, c3ds_catSum_rent, c3ds_catSum_food, ?_⟩
  intro h
  rw [h1, c3ds_topCat] at h
  simp at h

/-- Claim C1 (amended): in the top-level executor revision (the one wired
to the API endpoint), `compare_periods` with both bounds resolved returns
one entry per calendar month spanned by the range inclusive — labels are
pairwise-distinct year-month strings, values are the integer amount-sums
of the filtered working set in each month (hence 0 for months with no
matching transactions) — and returns the empty mapping when either bound
is absent.  Month/year bounds mirror what Python `datetime` guarantees.
(The core-package revision instead compares the queried period against
the preceding equal-length period; see the counterexample.) -/
theorem C1_compare_periods_monthly :
    (∀ (ds : List Txn) (e : Entities) (s en : DT),
      1 ≤ s.month → s.month ≤ 12 → 1 ≤ en.month → en.month ≤ 12 →
      0 ≤ s.year → s.year ≤ 9999 → 0 ≤ en.year → en.year ≤ 9999 →
      Api.execute "compare_periods" e (some s) (some en) ds
        = .ok (.map ((periodRange (s.year, s.month) (en.year, en.month)).map
            (fun p => (fmtYM p.1 p.2,
              Api.monthVal (workingSet e (some s) (some en) ds) p)))) ∧
      ((periodRange (s.year, s.month) (en.year, en.month)).map
          (fun p => (fmtYM p.1 p.2,
            Api.monthVal (workingSet e (some s) (some en) ds) p))).length
        = (12 * (en.year - s.year) + (en.month : ℤ) - (s.month : ℤ)
            + 1).toNat ∧
      (((periodRange (s.year, s.month) (en.year, en.month)).map
          (fun p => (fmtYM p.1 p.2,
            Api.monthVal (workingSet e (some s) (some en) ds) p))).map
        Prod.fst).Nodup) ∧
    (∀ (ds : List Txn) (e : Entities) (sd ed : Option DT),
      sd = none ∨ ed = none →
      Api.execute "compare_periods" e sd ed ds = .ok (.map [])) := by
  constructor
  · intro ds e s en hm1 hm2 hm3 hm4 hy1 hy2 hy3 hy4
    have hvalid : validYM (s.year, s.month) := ⟨hm1, hm2⟩
    have hbound : ymIdx (s.year, s.month)
        + ((ymIdx (en.year, en.month) + 1 - ymIdx (s.year, s.month)).toNat : ℤ)
        ≤ 120001 := by
      unfold ymIdx
      dsimp only
      omega
    have hnodup := periodRangeAux_keys_nodup
      (ymIdx (en.year, en.month) + 1 - ymIdx (s.year, s.month)).toNat
      (s.year, s.month) hvalid hy1 hbound
    have hfold := foldl_dictInsert_map (fun p => fmtYM p.1 p.2)
      (Api.monthVal (workingSet e (some s) (some en) ds))
      (periodRange (s.year, s.month) (en.year, en.month)) []
      hnodup (by intro p _ hmem; simp at hmem)
    refine ⟨?_, ?_, ?_⟩
    · have hred : Api.execute "compare_periods" e (some s) (some en) ds
          = .ok (.map (Api.comparePeriods
            (workingSet e (some s) (some en) ds) (some s) (some en))) := rfl
      rw [hred]
      have hcp : Api.comparePeriods (workingSet e (some s) (some en) ds)
          (some s) (some en)
          = (periodRange (s.year, s.month) (en.year, en.month)).foldl
            (fun a p => dictInsert a (fmtYM p.1 p.2)
              (Api.monthVal (workingSet e (some s) (some en) ds) p)) [] := rfl
      rw [hcp, hfold]
      simp
    · rw [List.length_map]
      unfold periodRange
      rw [periodRangeAux_length]
      congr 1
      unfold ymIdx
      dsimp only
      omega
    · rw [List.map_map]
      have hcomp : (Prod.fst ∘ fun p : ℤ × ℕ => (fmtYM p.1 p.2,
          Api.monthVal (workingSet e (some s) (some en) ds) p))
          = fun p : ℤ × ℕ => fmtYM p.1 p.2 := by
        funext p
        rfl
      rw [hcomp]
      exact hnodup
  · intro ds e sd ed hor
    have hred : Api.execute "compare_periods" e sd ed ds
        = .ok (.map (Api.comparePeriods (workingSet e sd ed ds) sd ed)) := rfl
    rw [hred]
    rcases sd with _ | s
    · rcases ed with _ | en <;> rfl
    · rcases ed with _ | en
      · rfl
      · rcases hor with h | h <;> simp at h

theorem C1_compare_periods_monthly_witness :
    Api.execute "compare_periods" ⟨none, none, none⟩
      (some ⟨2025, 1, 1, 0, 0, 0⟩) (some ⟨2025, 2, 5, 0, 0, 0⟩) []
      = .ok (.map ((periodRange (2025, 1) (2025, 2)).map
          (fun p => (fmtYM p.1 p.2,
            Api.monthVal (workingSet ⟨none, none, none⟩
              (some ⟨2025, 1, 1, 0, 0, 0⟩)
              (some ⟨2025, 2, 5, 0, 0, 0⟩) []) p)))) ∧
    ((periodRange (2025, 1) (2025, 2)).map
        (fun p => (fmtYM p.1 p.2,
          Api.monthVal (workingSet ⟨none, none, none⟩
            (some ⟨2025, 1, 1, 0, 0, 0⟩)
            (some ⟨2025, 2, 5, 0, 0, 0⟩) []) p))).length
      = (12 * ((2025 : ℤ) - 2025) + (2 : ℤ) - (1 : ℤ) + 1).toNat ∧
    (((periodRange (2025, 1) (2025, 2)).map
        (fun p => (fmtYM p.1 p.2,
          Api.monthVal (workingSet ⟨none, none, none⟩
            (some ⟨2025, 1, 1, 0, 0, 0⟩)
            (some ⟨2025, 2, 5, 0, 0, 0⟩) []) p))).map Prod.fst).Nodup :=
  C1_compare_periods_monthly.1 [] ⟨none, none, none⟩
    ⟨2025, 1, 1, 0, 0, 0⟩ ⟨2025, 2, 5, 0, 0, 0⟩
    (by norm_num) (by norm_num) (by norm_num) (by norm_num)
    (by norm_num) (by norm_num) (by norm_num) (by norm_num)

/-- Claim C1 counterexample: on a range spanning exactly one calendar
month (January 2025), the core-package executor returns two entries, one
of them keyed by a month ("2024-12") outside the range — not one entry
per spanned month. -/
theorem C1_compare_periods_monthly_counterexample :
    Core.execute "compare_periods" ⟨none, none, none⟩
      (some ⟨2025, 1, 1, 0, 0, 0⟩) (some ⟨2025, 1, 31, 23, 59, 59⟩) []
      = .ok (.map [("2025-01", 0), ("2024-12", 0)]) ∧
    periodRange (2025, 1) (2025, 1) = [(2025, 1)] := by
  constructor
  · rfl
  · rfl

/-! ### Intent classifier

`intent_matcher.py` (both revisions share this logic).  The sentence
embedding model and cosine similarity are an external collaborator, so a
call is modelled by the vector of similarity scores of the query against
the flattened template phrases. -/

/-- `np.argmax` scan: first index attaining the maximum (ties keep the
earlier index). -/
def argmaxAux : List ℚ → ℕ → ℕ → ℚ → ℕ
  | [], _, b, _ => b
  | x :: t, i, b, v =>
    if v < x then argmaxAux t (i + 1) i x else argmaxAux t (i + 1) b v

def argmaxIdx : List ℚ → ℕ
  | [] => 0
  | x :: t => argmaxAux t 1 0 x

/-- Python `round(x, 3)`. -/
def round3 (x : ℚ) : ℚ := (round (x * 1000) : ℚ) / 1000

/-- `IntentMatcher.match_intent`: nearest template, then the deterministic
confidence boost for listing queries, then 3-decimal rounding. -/
def matchIntent (sims : List ℚ) (labels : List String) (query : String) :
    String × ℚ :=
  let ql := query.toLower
  let bestIdx := argmaxIdx sims
  let bestIntent := labels.getD bestIdx ""
  let bestScore := sims.getD bestIdx 0
  let boosted :=
    if (bestIntent == "list_transactions")
        && (hasSub "show" ql || hasSub "list" ql) then
      max bestScore (11 / 20)
    else bestScore
  (bestIntent, round3 boosted)

/-- The intent template table of `intent_matcher.py`, with its flattening
into a parallel phrase/intent list. -/
def intentTemplates : List (String × List String) :=
  [("total_spend",
    ["how much did i spend", "total spending", "total expenses",
     "how much money did i spend"]),
   ("list_transactions",
    ["show my", "show all", "list my", "list all", "show transactions",
     "show expenses"]),
   ("top_category",
    ["biggest expense", "highest spending category", "most spent on"]),
   ("compare_periods",
    ["compare my spending", "compare expenses", "versus", "vs"]),
   ("average_spend",
    ["average spending", "average expense"])]

def phraseToIntent : List String :=
  intentTemplates.flatMap (fun it => it.2.map (fun _ => it.1))

def intentLabels : List String :=
  ["total_spend", "list_transactions", "top_category", "compare_periods",
   "average_spend"]

theorem argmaxAux_lt : ∀ (t : List ℚ) (i b : ℕ) (v : ℚ), b < i →
    argmaxAux t i b v < i + t.length := by
  intro t
  induction t with
  | nil => intro i b v h; simpa [argmaxAux] using h
  | cons x xs ih =>
    intro i b v h
    rw [argmaxAux]
    split
    · have := ih (i + 1) i x (by omega)
      simpa [Nat.add_comm, Nat.add_left_comm] using by omega
    · have := ih (i + 1) b v (by omega)
      simp only [List.length_cons]
      omega

theorem argmaxIdx_lt {l : List ℚ} (h : l ≠ []) : argmaxIdx l < l.length := by
  rcases l with _ | ⟨x, t⟩
  · exact absurd rfl h
  · have := argmaxAux_lt t 1 0 x (by omega)
    simpa [argmaxIdx] using by omega

theorem round3_ge_55 {x : ℚ} (h : 11 / 20 ≤ x) : (11 / 20 : ℚ) ≤ round3 x := by
  unfold round3
  have h1 : (550 : ℤ) ≤ round (x * 1000) := by
    rw [round_eq, Int.le_floor]
    push_cast
    linarith
  have h2 : (11 / 20 : ℚ) = 550 / 1000 := by norm_num
  rw [h2]
  gcongr
  exact_mod_cast h1

/-- Claim C5: the reported score of a "list transactions" prediction over
a query containing "show" or "list" is the 3-decimal rounding of
`max(raw, 0.55)`, hence at least 0.55 and no lower than the raw
similarity before rounding; the winning intent is exactly the
nearest-neighbor label, unchanged by the override; any other prediction
reports the raw similarity rounded to 3 decimals. -/
theorem C5_list_score_boost :
    ∀ (sims : List ℚ) (labels : List String) (q : String),
    sims ≠ [] →
    (matchIntent sims labels q).1 = labels.getD (argmaxIdx sims) "" ∧
    ((((matchIntent sims labels q).1 = "list_transactions") ∧
        (hasSub "show" q.toLower || hasSub "list" q.toLower) = true) →
      (matchIntent sims labels q).2
          = round3 (max (sims.getD (argmaxIdx sims) 0) (11 / 20)) ∧
        sims.getD (argmaxIdx sims) 0
          ≤ max (sims.getD (argmaxIdx sims) 0) (11 / 20) ∧
        (11 / 20 : ℚ) ≤ (matchIntent sims labels q).2) ∧
    (¬ (((matchIntent sims labels q).1 = "list_transactions") ∧
        (hasSub "show" q.toLower || hasSub "list" q.toLower) = true) →
      (matchIntent sims labels q).2 = round3 (sims.getD (argmaxIdx sims) 0)) := by
  intro sims labels q _
  have hfst : (matchIntent sims labels q).1
      = labels.getD (argmaxIdx sims) "" := rfl
  refine ⟨hfst, ?_, ?_⟩
  · intro ⟨h1, h2⟩
    rw [hfst] at h1
    have hcond : ((labels.getD (argmaxIdx sims) "" == "list_transactions")
        && (hasSub "show" q.toLower || hasSub "list" q.toLower)) = true := by
      rw [Bool.and_eq_true]
      exact ⟨beq_iff_eq.mpr h1, h2⟩
    have hsnd : (matchIntent sims labels q).2
        = round3 (max (sims.getD (argmaxIdx sims) 0) (11 / 20)) := by
      unfold matchIntent
      dsimp only
      rw [hcond]
      rfl
    refine ⟨hsnd, le_max_left _ _, ?_⟩
    rw [hsnd]
    exact round3_ge_55 (le_max_right _ _)
  · intro hn
    have hcond : ((labels.getD (argmaxIdx sims) "" == "list_transactions")
        && (hasSub "show" q.toLower || hasSub "list" q.toLower)) = false := by
      rw [Bool.and_eq_false_iff]
      by_cases h1 : labels.getD (argmaxIdx sims) "" = "list_transactions"
      · right
        by_cases h2 : (hasSub "show" q.toLower || hasSub "list" q.toLower)
            = true
        · exact absurd ⟨h1, h2⟩ hn
        · simpa using h2
      · left
        simpa using h1
    unfold matchIntent
    dsimp only
    rw [hcond]
    rfl

theorem C5_list_score_boost_witness :
    (matchIntent [(1 : ℚ) / 2] ["list_transactions"] "show my stuff").1
        = ["list_transactions"].getD (argmaxIdx [(1 : ℚ) / 2]) "" ∧
    ((((matchIntent [(1 : ℚ) / 2] ["list_transactions"] "show my stuff").1
        = "list_transactions") ∧
        (hasSub "show" ("show my stuff" : String).toLower
          || hasSub "list" ("show my stuff" : String).toLower) = true) →
      (matchIntent [(1 : ℚ) / 2] ["list_transactions"] "show my stuff").2
          = round3 (max ([(1 : ℚ) / 2].getD (argmaxIdx [(1 : ℚ) / 2]) 0)
              (11 / 20)) ∧
        [(1 : ℚ) / 2].getD (argmaxIdx [(1 : ℚ) / 2]) 0
          ≤ max ([(1 : ℚ) / 2].getD (argmaxIdx [(1 : ℚ) / 2]) 0) (11 / 20) ∧
        (11 / 20 : ℚ)
          ≤ (matchIntent [(1 : ℚ) / 2] ["list_transactions"]
              "show my stuff").2) ∧
    (¬ (((matchIntent [(1 : ℚ) / 2] ["list_transactions"] "show my stuff").1
        = "list_transactions") ∧
        (hasSub "show" ("show my stuff" : String).toLower
          || hasSub "list" ("show my stuff" : String).toLower) = true) →
      (matchIntent [(1 : ℚ) / 2] ["list_transactions"] "show my stuff").2
        = round3 ([(1 : ℚ) / 2].getD (argmaxIdx [(1 : ℚ) / 2]) 0)) :=
  C5_list_score_boost [(1 : ℚ) / 2] ["list_transactions"] "show my stuff"
    (by simp)

/-- Claim C9: the classifier's winning label always comes from the fixed
five-intent set of the template table, and for any such label the
executor's unknown-intent error branch is unreachable. -/
theorem C9_intent_closed_set :
    ∀ (sims : List ℚ) (q : String) (e : Entities) (sd ed : Option DT)
      (ds : List Txn),
    sims.length = 19 →
    (matchIntent sims phraseToIntent q).1 ∈ intentLabels ∧
    ∃ r, Core.execute (matchIntent sims phraseToIntent q).1 e sd ed ds
        = Except.ok r := by
  intro sims q e sd ed ds hlen
  have hne : sims ≠ [] := by
    intro h
    rw [h] at hlen
    simp at hlen
  have hi : argmaxIdx sims < 19 := by
    have := argmaxIdx_lt hne
    omega
  have hlen19 : phraseToIntent.length = 19 := rfl
  have hfst : (matchIntent sims phraseToIntent q).1
      = phraseToIntent.getD (argmaxIdx sims) "" := rfl
  have hget : phraseToIntent.getD (argmaxIdx sims) ""
      = phraseToIntent.get ⟨argmaxIdx sims, by omega⟩ := by
    rw [List.getD_eq_getElem?_getD, List.getElem?_eq_getElem (by omega)]
    rfl
  have hmem : (matchIntent sims phraseToIntent q).1 ∈ phraseToIntent := by
    rw [hfst, hget]
    exact List.get_mem _ _ _
  have hsub : ∀ x ∈ phraseToIntent, x ∈ intentLabels := by decide
  have hmem5 := hsub _ hmem
  refine ⟨hmem5, ?_⟩
  simp only [intentLabels, List.mem_cons, List.not_mem_nil, or_false]
    at hmem5
  rcases hmem5 with h | h | h | h | h <;> rw [h] <;> exact ⟨_, rfl⟩

theorem C9_intent_closed_set_witness :
    (matchIntent (List.replicate 19 (0 : ℚ)) phraseToIntent "hello").1
        ∈ intentLabels ∧
    ∃ r, Core.execute
        (matchIntent (List.replicate 19 (0 : ℚ)) phraseToIntent "hello").1
        ⟨none, none, none⟩ none none [] = Except.ok r :=
  C9_intent_closed_set (List.replicate 19 (0 : ℚ)) "hello"
    ⟨none, none, none⟩ none none [] (by simp)

/-! ### Date range resolver

`core/date_parser.py` `DateParser.parse`: an ordered cascade of rules over
the case-folded query.  The regex searches are modelled by executable
leftmost scanners over the character list; the external `dateparser`
library is a function parameter `dp`.  `datetime.now()` is the injected
`now`. -/

/-- ASCII case folding, modelling `str.lower()` on the queries'
character range. -/
def lowerChar (c : Char) : Char :=
  if 'A' ≤ c && c ≤ 'Z' then Char.ofNat (c.toNat + 32) else c

def lowerL (s : String) : List Char := s.toList.map lowerChar

def wsRun (l : List Char) : ℕ := (l.takeWhile isWsC).length

def digitRun (l : List Char) : List Char := l.takeWhile isDigitC

def lowerRun (l : List Char) : List Char := l.takeWhile isLowerC

/-- The month-name alternation of the regexes, in pattern order. -/
def monthNames : List (String × ℕ) :=
  [("january", 1), ("february", 2), ("march", 3), ("april", 4), ("may", 5),
   ("june", 6), ("july", 7), ("august", 8), ("september", 9),
   ("october", 10), ("november", 11), ("december", 12)]

/-- First month-name alternative matching at this position. -/
def monthPrefixAt (l : List Char) : Option ℕ :=
  monthNames.findSome? (fun p => if leadRun p.1.toList l then some p.2 else none)

/-- `strptime(group, "%B").month`: the captured text is a full month name. -/
def monthFromName (s : String) : Option ℕ :=
  (monthNames.find? (fun p => p.1 == s)).map Prod.snd

/-- The separator `\s+and\s+` of the between-rule, returning the trailing
`(.+)` group; the greedy trailing `\s+` gives one character back when the
final group would otherwise be empty. -/
def trySep (l : List Char) : Option (List Char) :=
  let w := wsRun l
  if w = 0 then none
  else
    let r1 := l.drop w
    if leadRun "and".toList r1 then
      let r2 := r1.drop 3
      let w2 := wsRun r2
      if w2 = 0 then none
      else if r2.drop w2 ≠ [] then some (r2.drop w2)
      else if 2 ≤ w2 then some (r2.drop (w2 - 1))
      else none
    else none

/-- Lazy growth of the `(.+?)` group of the between-rule: the shortest
nonempty newline-free prefix followed by the separator wins. -/
def g1scan : List Char → List Char → Option (String × String)
  | _, [] => none
  | acc, c :: t =>
    if c == '\n' then none
    else
      match trySep t with
      | some rest => some (String.mk (c :: acc).reverse, String.mk rest)
      | none => g1scan (c :: acc) t

def tryBetweenAt (l : List Char) : Option (String × String) :=
  if leadRun "between".toList l then
    let r := l.drop 7
    let w := wsRun r
    if w = 0 then none else g1scan [] (r.drop w)
  else none

/-- `re.search(r"between\s+(.+?)\s+and\s+(.+)", q)`: leftmost match. -/
def betweenScan : List Char → Option (String × String)
  | [] => none
  | c :: t =>
    match tryBetweenAt (c :: t) with
    | some g => some g
    | none => betweenScan t

def tryLastNAt (l : List Char) : Option ℕ :=
  if leadRun "last".toList l then
    let r := l.drop 4
    let w := wsRun r
    if w = 0 then none
    else
      let d := digitRun (r.drop w)
      if d = [] then none
      else
        let r2 := (r.drop w).drop d.length
        let w2 := wsRun r2
        if w2 = 0 then none
        else if leadRun "days".toList (r2.drop w2) then some (digitsToNat d)
        else none
  else none

/-- `re.search(r"last\s+(\d+)\s+days", q)`. -/
def lastNScan : List Char → Option ℕ
  | [] => none
  | c :: t =>
    match tryLastNAt (c :: t) with
    | some n => some n
    | none => lastNScan t

def trySinceAt (l : List Char) : Option ℕ :=
  if leadRun "since".toList l then
    let r := l.drop 5
    let w := wsRun r
    if w = 0 then none else monthPrefixAt (r.drop w)
  else none

/-- `re.search(r"since\s+(january|...|december)", q)`. -/
def sinceScan : List Char → Option ℕ
  | [] => none
  | c :: t =>
    match trySinceAt (c :: t) with
    | some m => some m
    | none => sinceScan t

/-- Four consecutive digits (`(\d{4})`, with no trailing boundary). -/
def year4 (l : List Char) : Option ℕ :=
  match l with
  | a :: b :: c :: d :: _ =>
    if isDigitC a && isDigitC b && isDigitC c && isDigitC d then
      some (digitsToNat [a, b, c, d])
    else none
  | _ => none

/-- `,?\s*(\d{4})` after the day digits of the on-rule. -/
def afterDay (l : List Char) : Option ℕ :=
  let l1 := if leadRun [','] l then l.drop 1 else l
  year4 (l1.drop (wsRun l1))

def tryOnAt (l : List Char) : Option (String × ℕ × ℕ) :=
  if leadRun "on".toList l then
    let r := l.drop 2
    let w := wsRun r
    if w = 0 then none
    else
      let letters := lowerRun (r.drop w)
      if letters = [] then none
      else
        let r2 := (r.drop w).drop letters.length
        let w2 := wsRun r2
        if w2 = 0 then none
        else
          let digs := digitRun (r2.drop w2)
          if digs = [] then none
          else
            let rest := (r2.drop w2).drop digs.length
            match (if 2 ≤ digs.length then afterDay (digs.drop 2 ++ rest)
                else none) with
            | some y => some (String.mk letters, digitsToNat (digs.take 2), y)
            | none =>
              match afterDay (digs.drop 1 ++ rest) with
              | some y => some (String.mk letters, digitsToNat (digs.take 1), y)
              | none => none
  else none

/-- `re.search(r"on\s+([a-z]+)\s+(\d{1,2}),?\s*(\d{4})", q)`, with the
greedy-then-backtracking day group. -/
def onScan : List Char → Option (String × ℕ × ℕ)
  | [] => none
  | c :: t =>
    match tryOnAt (c :: t) with
    | some g => some g
    | none => onScan t

def tryInAt (l : List Char) : Option ℕ :=
  if leadRun "in".toList l then
    let r := l.drop 2
    let w := wsRun r
    if w = 0 then none else monthPrefixAt (r.drop w)
  else none

/-- `re.search(r"in\s+(january|...|december)", q)`. -/
def inScan : List Char → Option ℕ
  | [] => none
  | c :: t =>
    match tryInAt (c :: t) with
    | some m => some m
    | none => inScan t

def tryYearAt (prev : Option Char) (l : List Char) : Option ℕ :=
  match l with
  | a :: b :: c :: d :: rest =>
    if (match prev with | some pc => !(isWordC pc) | none => true)
        && ((a == '1' && b == '9') || (a == '2' && b == '0'))
        && isDigitC c && isDigitC d
        && (match rest with | [] => true | e :: _ => !(isWordC e)) then
      some (digitsToNat [a, b, c, d])
    else none
  | _ => none

/-- `re.search(r"\b(19|20)\d{2}\b", q)`, tracking the previous character
for the left word boundary. -/
def yearScan : Option Char → List Char → Option ℕ
  | _, [] => none
  | prev, c :: t =>
    match tryYearAt prev (c :: t) with
    | some y => some y
    | none => yearScan (some c) t

/-- `strptime(" ".join(groups), "%B %d %Y")`: `none` models the
`ValueError` raised on a non-month word or an out-of-range day. -/
def strptimeBDY (w : String) (d y : ℕ) : Option DT :=
  match monthFromName w with
  | some m =>
    if 1 ≤ y ∧ 1 ≤ d ∧ d ≤ monthLen (y : ℤ) m then
      some ⟨(y : ℤ), m, d, 0, 0, 0⟩
    else none
  | none => none

/-- `DateParser._full_month`. -/
def fullMonth (y : ℤ) (m : ℕ) : Option DT × Option DT :=
  (some (startOfDay ⟨y, m, 1, 0, 0, 0⟩),
   some (endOfDay ⟨y, m, monthLen y m, 0, 0, 0⟩))

/-- Rules 2-14 of the cascade (everything after the between-rule). -/
def parseRest (dp : String → Option DT) (now : DT) (L : List Char) :
    Except Unit (Option DT × Option DT) :=
  if hasSubL "yesterday".toList L then
    let d := subDays now 1
    .ok (some (startOfDay d), some (endOfDay d))
  else if hasSubL "last week".toList L then
    let s := subDays now (weekdayOf now + 7)
    let e := addDays s 6
    .ok (some (startOfDay s), some (endOfDay e))
  else
    match lastNScan L with
    | some n => .ok (some (startOfDay (subDays now n)), some (endOfDay now))
    | none =>
      match sinceScan L with
      | some m =>
        .ok (some (startOfDay ⟨now.year, m, 1, 0, 0, 0⟩), some (endOfDay now))
      | none =>
        match onScan L with
        | some g =>
          match strptimeBDY g.1 g.2.1 g.2.2 with
          | some dt => .ok (some (startOfDay dt), some (endOfDay dt))
          | none => .error ()
        | none =>
          if hasSubL "last month".toList L then
            let m0 := now.month - 1
            if m0 = 0 then .ok (fullMonth (now.year - 1) 12)
            else .ok (fullMonth now.year m0)
          else if hasSubL "this month".toList L then
            .ok (fullMonth now.year now.month)
          else if hasSubL "this year".toList L then
            .ok (some (startOfDay ⟨now.year, 1, 1, 0, 0, 0⟩),
              some (endOfDay ⟨now.year, 12, 31, 0, 0, 0⟩))
          else if hasSubL "last year".toList L then
            .ok (some (startOfDay ⟨now.year - 1, 1, 1, 0, 0, 0⟩),
              some (endOfDay ⟨now.year - 1, 12, 31, 0, 0, 0⟩))
          else
            match inScan L with
            | some m => .ok (fullMonth now.year m)
            | none =>
              match yearScan none L with
              | some y =>
                .ok (some (startOfDay ⟨(y : ℤ), 1, 1, 0, 0, 0⟩),
                  some (endOfDay ⟨(y : ℤ), 12, 31, 0, 0, 0⟩))
              | none =>
                match dp (String.mk L) with
                | some d => .ok (some (startOfDay d), some (endOfDay d))
                | none => .ok (none, none)

/-- `DateParser.parse`: empty query short-circuit, case folding, then the
between-rule (falling through when either operand fails to parse) and the
rest of the cascade. -/
def parseQuery (dp : String → Option DT) (now : DT) (query : String) :
    Except Unit (Option DT × Option DT) :=
  if query = "" then .ok (none, none)
  else
    let L := lowerL query
    match betweenScan L with
    | some g =>
      match dp g.1, dp g.2 with
      | some d1, some d2 => .ok (some (startOfDay d1), some (endOfDay d2))
      | _, _ => parseRest dp now L
    | none => parseRest dp now L

/-- Did the between-rule fire (pattern matched and both operands parsed)? -/
def betweenTaken (dp : String → Option DT) (L : List Char) : Bool :=
  match betweenScan L with
  | some g => (dp g.1).isSome && (dp g.2).isSome
  | none => false

theorem dateOf_subDays (t : DT) (n : ℕ) :
    dateOf (subDays t n) = iterPrev n (dateOf t) := rfl

theorem dateOf_addDays (t : DT) (n : ℕ) :
    dateOf (addDays t n) = iterNext n (dateOf t) := rfl

theorem dateLe3_fullMonth (y : ℤ) (m : ℕ) :
    dateLe3 (y, m, 1) (y, m, monthLen y m) := by
  have := monthLen_pos y m
  unfold dateLe3
  dsimp only
  omega

theorem dateLe3_year (y : ℤ) : dateLe3 (y, 1, 1) (y, 12, 31) := by
  unfold dateLe3
  dsimp only
  omega

/-- Did the since-rule of the cascade fire?  It does exactly when none of
the earlier rules handled by `parseRest` (yesterday, last week,
last N days) matched and the since-pattern did.  (The between-rule, which
precedes all of these, is tracked separately by `betweenTaken`.) -/
def sinceTaken (L : List Char) : Bool :=
  !(hasSubL "yesterday".toList L) && !(hasSubL "last week".toList L)
    && (lastNScan L).isNone && (sinceScan L).isSome

/-- Every range produced by a rule of the cascade other than the
between-rule and the since-rule has its start at or before its end: if the
since-rule did not fire (even when the since-pattern occurs but an earlier
rule resolved the range), the result is ordered. -/
theorem parseRest_le (dp : String → Option DT) (now : DT) (L : List Char)
    (s e : DT) (hv : validDT now) (hsince : sinceTaken L = false)
    (h : parseRest dp now L = .ok (some s, some e)) : dtLe s e := by
  unfold parseRest at h
  dsimp only at h
  split at h
  · -- yesterday
    simp only [Except.ok.injEq, Prod.mk.injEq, Option.some.injEq] at h
    obtain ⟨rfl, rfl⟩ := h
    exact dtLe_start_end (dateLe3_refl _)
  · rename_i hyes
    split at h
    · -- last week
      simp only [Except.ok.injEq, Prod.mk.injEq, Option.some.injEq] at h
      obtain ⟨rfl, rfl⟩ := h
      apply dtLe_start_end
      rw [dateOf_addDays, dateOf_subDays]
      exact (iterNext_valid_ge 6 (iterPrev_valid_le _ hv).1).2
    · rename_i hlw
      split at h
      · -- last N days
        simp only [Except.ok.injEq, Prod.mk.injEq, Option.some.injEq] at h
        obtain ⟨rfl, rfl⟩ := h
        apply dtLe_start_end
        rw [dateOf_subDays]
        exact (iterPrev_valid_le _ hv).2
      · rename_i hln
        split at h
        · -- since <month>: this rule firing contradicts the hypothesis
          rename_i m hsm
          exfalso
          have hyes' : hasSubL "yesterday".toList L = false :=
            Bool.eq_false_iff.mpr hyes
          have hlw' : hasSubL "last week".toList L = false :=
            Bool.eq_false_iff.mpr hlw
          unfold sinceTaken at hsince
          rw [hyes', hlw', hln, hsm] at hsince
          simp at hsince
        -- since-pattern absent or unreached: the rest of the cascade
        split at h
        · -- on <month> <day> <year>: same calendar day
          split at h
          · simp only [Except.ok.injEq, Prod.mk.injEq, Option.some.injEq] at h
            obtain ⟨rfl, rfl⟩ := h
            exact dtLe_start_end (dateLe3_refl _)
          · simp at h
        · split at h
          · -- last month
            split at h <;>
              (simp only [fullMonth, Except.ok.injEq, Prod.mk.injEq,
                Option.some.injEq] at h
               obtain ⟨rfl, rfl⟩ := h
               exact dtLe_start_end (dateLe3_fullMonth _ _))
          · split at h
            · -- this month
              simp only [fullMonth, Except.ok.injEq, Prod.mk.injEq,
                Option.some.injEq] at h
              obtain ⟨rfl, rfl⟩ := h
              exact dtLe_start_end (dateLe3_fullMonth _ _)
            · split at h
              · -- this year
                simp only [Except.ok.injEq, Prod.mk.injEq,
                  Option.some.injEq] at h
                obtain ⟨rfl, rfl⟩ := h
                exact dtLe_start_end (dateLe3_year _)
              · split at h
                · -- last year
                  simp only [Except.ok.injEq, Prod.mk.injEq,
                    Option.some.injEq] at h
                  obtain ⟨rfl, rfl⟩ := h
                  exact dtLe_start_end (dateLe3_year _)
                · split at h
                  · -- in <month>
                    simp only [fullMonth, Except.ok.injEq, Prod.mk.injEq,
                      Option.some.injEq] at h
                    obtain ⟨rfl, rfl⟩ := h
                    exact dtLe_start_end (dateLe3_fullMonth _ _)
                  · split at h
                    · -- bare year
                      simp only [Except.ok.injEq, Prod.mk.injEq,
                        Option.some.injEq] at h
                      obtain ⟨rfl, rfl⟩ := h
                      exact dtLe_start_end (dateLe3_year _)
                    · split at h
                      · -- fallback single date
                        simp only [Except.ok.injEq, Prod.mk.injEq,
                          Option.some.injEq] at h
                        obtain ⟨rfl, rfl⟩ := h
                        exact dtLe_start_end (dateLe3_refl _)
                      · simp at h

/-- Claim C4 (amended): whenever the resolver returns a range with both
bounds present via any rule other than `between <X> and <Y>` and
`since <month-name>` — i.e. whenever neither of those two rules is the one
that fired, even if their patterns occur in the query — `start <= end`
holds.  The between-rule returns its operands' order unchecked and the
since-rule can place the month start after `now`; both violate the
invariant (see the counterexample). -/
theorem C4_resolved_range_ordered :
    ∀ (dp : String → Option DT) (now : DT) (query : String) (s e : DT),
    validDT now →
    betweenTaken dp (lowerL query) = false →
    sinceTaken (lowerL query) = false →
    parseQuery dp now query = .ok (some s, some e) →
    dtLe s e := by
  intro dp now query s e hv hbt hsince h
  unfold parseQuery at h
  split at h
  · simp at h
  · unfold betweenTaken at hbt
    dsimp only at h
    cases hbs : betweenScan (lowerL query) with
    | none =>
      rw [hbs] at h
      exact parseRest_le dp now _ s e hv hsince h
    | some g =>
      rw [hbs] at h hbt
      dsimp only at h hbt
      cases h1 : dp g.1 with
      | none =>
        rw [h1] at h
        exact parseRest_le dp now _ s e hv hsince h
      | some d1 =>
        cases h2 : dp g.2 with
        | none =>
          rw [h1, h2] at h
          exact parseRest_le dp now _ s e hv hsince h
        | some d2 =>
          rw [h1, h2] at hbt
          simp at hbt

/-- Claim C2: evaluating the resolver at a query of the shape
`on <word> <day>, <year>` whose word is not a month name.  The on-rule's
regex matches, and `strptime(..., "%B %d %Y")` then raises `ValueError`
(modelled as the error result) instead of degrading softly — for every
ambient clock and every behavior of the fallback free-text parser. -/
theorem C2_on_rule_raises :
    ∀ (dp : String → Option DT) (now : DT),
    parseQuery dp now "on amazon 5, 2025" = .error () := by
  intro dp now
  rfl

/-- Modelled from the spec: the external general free-text date parser
(the `dateparser` library), restricted to ISO `YYYY-MM-DD` literals,
which is all the counterexample feeds it. -/
def dateparserISO (s : String) : Option DT :=
  match s.toList with
  | [y1, y2, y3, y4, '-', m1, m2, '-', d1, d2] =>
    if [y1, y2, y3, y4, m1, m2, d1, d2].all isDigitC then
      some ⟨(digitsToNat [y1, y2, y3, y4] : ℤ), digitsToNat [m1, m2],
        digitsToNat [d1, d2], 0, 0, 0⟩
    else none
  | _ => none

/-- Claim C4 counterexample: the between-rule hands back its operands in
the user's order, so `between 2025-12-01 and 2024-01-01` resolves with
start after end; and `since december` asked in March 2025 starts the
range at the first of December 2025, also after its end `now`. -/
theorem C4_resolved_range_ordered_counterexample :
    parseQuery dateparserISO ⟨2025, 3, 15, 12, 0, 0⟩
      "between 2025-12-01 and 2024-01-01"
      = .ok (some ⟨2025, 12, 1, 0, 0, 0⟩, some ⟨2024, 1, 1, 23, 59, 59⟩) ∧
    ¬ dtLe ⟨2025, 12, 1, 0, 0, 0⟩ ⟨2024, 1, 1, 23, 59, 59⟩ ∧
    parseQuery dateparserISO ⟨2025, 3, 15, 12, 0, 0⟩ "spent since december"
      = .ok (some ⟨2025, 12, 1, 0, 0, 0⟩, some ⟨2025, 3, 15, 23, 59, 59⟩) ∧
    ¬ dtLe ⟨2025, 12, 1, 0, 0, 0⟩ ⟨2025, 3, 15, 23, 59, 59⟩ := by
  refine ⟨rfl, ?_, rfl, ?_⟩
  · intro hle
    unfold dtLe at hle
    dsimp only at hle
    omega
  · intro hle
    unfold dtLe at hle
    dsimp only at hle
    omega

theorem C4_resolved_range_ordered_witness :
    dtLe ⟨2025, 3, 14, 0, 0, 0⟩ ⟨2025, 3, 14, 23, 59, 59⟩ :=
  C4_resolved_range_ordered (fun _ => none) ⟨2025, 3, 15, 12, 0, 0⟩
    "yesterday since march" ⟨2025, 3, 14, 0, 0, 0⟩ ⟨2025, 3, 14, 23, 59, 59⟩
    (by unfold validDT validDay dateOf monthLen; norm_num) rfl rfl rfl

/-! ### Entity extractor

`entity_extractor.py` (both revisions are identical here).  The merchant
list is loaded from configuration and the `rapidfuzz` similarity scorer is
an external collaborator, so both are parameters. -/

def categoryKeywords : List (String × List String) :=
  [("rent", ["rent", "rental", "landlord"]),
   ("cafe", ["coffee", "cafe", "cafes"]),
   ("grocery", ["grocery", "groceries", "bigbasket", "instamart"]),
   ("food", ["food", "meal", "lunch", "dinner", "swiggy", "zomato"]),
   ("transport", ["transport", "travel", "uber", "ola", "cab"]),
   ("utilities", ["utilities", "bill", "electricity", "water", "internet"]),
   ("subscriptions", ["subscription", "subscriptions", "netflix", "spotify"]),
   ("entertainment", ["entertainment", "movie", "concert"]),
   ("gifts", ["gift", "gifts"]),
   ("shopping", ["shopping", "purchase", "amazon", "flipkart"])]

def merchantCategoryMap : List (String × String) :=
  [("starbucks", "cafe"), ("ccd", "cafe"), ("swiggy", "food"),
   ("zomato", "food"), ("dominos", "food"), ("uber", "transport"),
   ("ola", "transport"), ("amazon", "shopping"), ("flipkart", "shopping"),
   ("myntra", "shopping"), ("bigbasket", "grocery"),
   ("instamart", "grocery"), ("netflix", "subscriptions"),
   ("spotify", "subscriptions"), ("bookmyshow", "entertainment"),
   ("makemytrip", "travel")]

/-- `process.extractOne(token, merchants, scorer=fuzz.ratio)`: best-scoring
merchant, first occurrence kept on ties; `none` on an empty list. -/
def bestMatch (scorer : String → String → ℚ) (merchants : List String)
    (t : String) : Option (String × ℚ) :=
  match merchants with
  | [] => none
  | h :: tl =>
    some (tl.foldl (fun b x => if b.2 < scorer t x then (x, scorer t x) else b)
      (h, scorer t h))

/-- The best fuzzy score of a token, 0 when there are no merchants
(mirroring the `or (None, 0, None)` default). -/
def bestScore (scorer : String → String → ℚ) (merchants : List String)
    (t : String) : ℚ :=
  match bestMatch scorer merchants t with
  | some p => p.2
  | none => 0

/-- The alternatives of `(above|over|greater than|>=)`, in pattern order. -/
def amountTriggers : List (List Char) :=
  ["above".toList, "over".toList, "greater than".toList, ">=".toList]

def tryAmountAt (l : List Char) : Option ℕ :=
  match amountTriggers.findSome?
      (fun pat => if leadRun pat l then some pat.length else none) with
  | some n =>
    let r := l.drop n
    let d := digitRun (r.drop (wsRun r))
    if d = [] then none else some (digitsToNat d)
  | none => none

/-- `re.search(r"(above|over|greater than|>=)\s*(\d+)", q)`. -/
def amountScan : List Char → Option ℕ
  | [] => none
  | c :: t =>
    match tryAmountAt (c :: t) with
    | some v => some v
    | none => amountScan t

/-- The fuzzy tier's per-token step: skip short tokens, accept the best
merchant when its score reaches the threshold. -/
def fuzzyStep (scorer : String → String → ℚ) (merchants : List String)
    (t : String) : Option String :=
  if t.length < 6 then none
  else
    match bestMatch scorer merchants t with
    | some p => if 88 ≤ p.2 then some p.1 else none
    | none => none

/-- `EntityExtractor.extract`: keyword category, exact-substring merchant,
fuzzy-token merchant, merchant-to-category inference, amount threshold. -/
def extractEnt (merchants : List String) (scorer : String → String → ℚ)
    (query : String) : Entities :=
  let q := lowerL query
  let tokens := alphaTokensAux [] q
  let category0 := (categoryKeywords.find?
    (fun p => p.2.any (fun k => hasSubL k.toList q))).map Prod.fst
  let merchant :=
    match merchants.find? (fun m => hasSubL m.toList q) with
    | some m => some m
    | none => tokens.findSome? (fuzzyStep scorer merchants)
  let category :=
    match category0, merchant with
    | none, some m => if m == "" then none else merchantCategoryMap.lookup m
    | c, _ => c
  let amount := (amountScan q).map (fun n => (n : ℚ))
  ⟨category, merchant, amount⟩

/-- The claim's wording of merchant resolution, as a definition: first
lexicon merchant occurring as a substring of the case-folded query; only
if none does, the best-scoring merchant of the first alphabetic token of
length at least 6 whose best similarity reaches 88; otherwise absent. -/
def merchantResolutionSpec (merchants : List String)
    (scorer : String → String → ℚ) (query : String) : Option String :=
  let q := lowerL query
  match (merchants.filter (fun m => hasSubL m.toList q)).head? with
  | some m => some m
  | none =>
    match ((alphaTokensAux [] q).filter (fun t =>
        decide (6 ≤ t.length)
          && decide (88 ≤ bestScore scorer merchants t))).head? with
    | some t => (bestMatch scorer merchants t).map Prod.fst
    | none => none

theorem find?_eq_filter_head? {α : Type} (p : α → Bool) (l : List α) :
    l.find? p = (l.filter p).head? := by
  induction l with
  | nil => rfl
  | cons x t ih =>
    rw [List.find?_cons, List.filter_cons]
    cases hx : p x
    · rw [if_neg Bool.false_ne_true]
      exact ih
    · simp

theorem findSome?_eq_filter_head? {α β : Type} (f : α → Option β)
    (l : List α) :
    l.findSome? f = ((l.filter (fun x => (f x).isSome)).head?).bind f := by
  induction l with
  | nil => rfl
  | cons x t ih =>
    rw [List.findSome?_cons, List.filter_cons]
    cases hfx : f x with
    | some b =>
      rw [if_pos (by rfl)]
      simp [hfx]
    | none =>
      rw [if_neg (by simp)]
      simp only [List.head?_cons]
      exact ih

theorem fuzzyStep_isSome (scorer : String → String → ℚ)
    (merchants : List String) (t : String) :
    (fuzzyStep scorer merchants t).isSome
      = (decide (6 ≤ t.length) && decide (88 ≤ bestScore scorer merchants t)) := by
  unfold fuzzyStep bestScore
  by_cases hlen : t.length < 6
  · rw [if_pos hlen, decide_eq_false (by omega : ¬ 6 ≤ t.length),
      Bool.false_and]
    rfl
  · rw [if_neg hlen, decide_eq_true (by omega : 6 ≤ t.length),
      Bool.true_and]
    cases hbm : bestMatch scorer merchants t with
    | none =>
      dsimp only
      rw [decide_eq_false (by norm_num : ¬ (88 : ℚ) ≤ 0)]
      rfl
    | some p =>
      dsimp only
      by_cases hs : (88 : ℚ) ≤ p.2
      · rw [if_pos hs, decide_eq_true hs]
        rfl
      · rw [if_neg hs, decide_eq_false hs]
        rfl

/-- Claim C8: the extractor's merchant field coincides with the claim's
two-tier description, for every merchant lexicon, similarity scorer and
query. -/
theorem C8_merchant_two_tier :
    ∀ (merchants : List String) (scorer : String → String → ℚ)
      (query : String),
    (extractEnt merchants scorer query).merchant
      = merchantResolutionSpec merchants scorer query := by
  intro ms scorer q
  unfold extractEnt merchantResolutionSpec
  dsimp only
  rw [find?_eq_filter_head?]
  cases (ms.filter (fun m => hasSubL m.toList (lowerL q))).head? with
  | some m => rfl
  | none =>
    dsimp only
    rw [findSome?_eq_filter_head?]
    have hpred : (fun x => (fuzzyStep scorer ms x).isSome)
        = (fun t => decide (6 ≤ t.length)
            && decide (88 ≤ bestScore scorer ms t)) := by
      funext t
      exact fuzzyStep_isSome scorer ms t
    rw [hpred]
    cases hh : ((alphaTokensAux [] (lowerL q)).filter (fun t =>
        decide (6 ≤ t.length)
          && decide (88 ≤ bestScore scorer ms t))).head? with
    | none => rfl
    | some t =>
      have hmem : t ∈ (alphaTokensAux [] (lowerL q)).filter (fun t =>
          decide (6 ≤ t.length)
            && decide (88 ≤ bestScore scorer ms t)) := by
        rcases hl : (alphaTokensAux [] (lowerL q)).filter (fun t =>
            decide (6 ≤ t.length)
              && decide (88 ≤ bestScore scorer ms t)) with _ | ⟨t0, rest⟩
        · rw [hl] at hh
          simp at hh
        · rw [hl] at hh
          simp only [List.head?_cons, Option.some.injEq] at hh
          rw [hl, hh]
          exact List.mem_cons_self _ _
      have hguard := List.of_mem_filter hmem
      rw [Bool.and_eq_true, decide_eq_true_eq, decide_eq_true_eq] at hguard
      obtain ⟨hlen, hscore⟩ := hguard
      unfold bestScore at hscore
      simp only [Option.some_bind]
      unfold fuzzyStep
      rw [if_neg (by omega)]
      cases hbm : bestMatch scorer ms t with
      | none =>
        rw [hbm] at hscore
        dsimp only at hscore
        norm_num at hscore
      | some p =>
        rw [hbm] at hscore
        dsimp only at hscore
        dsimp only
        rw [if_pos hscore]
        rfl
